import Mathlib

/-!
Verification of the request-rate tracking engine of `tailnginx`
(`pkg/metrics`, type `RateTracker`).

The Go code is shallowly embedded as follows.

* `time.Time` and `time.Duration` are both modeled as `Int` nanosecond
  counts.  Go's zero `time.Time` corresponds to `0`, so `t.IsZero()`
  becomes `t = 0`, `a.After(b)` becomes `b < a`, `a.Sub(b)` becomes
  `a - b`, and `t.Truncate(d)` (which rounds down to a multiple of `d`
  since the zero time and returns `t` unchanged for `d ≤ 0`) becomes
  flooring with `Int.emod`.
* Go slices of `int` / `time.Time` become `List Int`.
* Go operations that can panic (indexing out of range, `make` with a
  negative length, `%` by zero) are modeled by returning `none`.
* `float64` arithmetic in `GetStats` (`Seconds()`, the rate divisions,
  the trend percentage) is modeled exactly over `ℚ`;
  `d.Seconds() = float64(d)/1e9` becomes `(d : ℚ) / 1000000000`.
-/

/-- Go `time.Time.IsZero`: the zero time is modeled as the integer `0`. -/
def timeIsZero (t : Int) : Prop := t = 0

instance (t : Int) : Decidable (timeIsZero t) := inferInstanceAs (Decidable (t = 0))

/-- Go `t.Truncate(d)`: round `t` down to a multiple of `d` (since the
zero time); for `d ≤ 0` the time is returned unchanged. -/
def timeTruncate (t d : Int) : Int :=
  if d ≤ 0 then t else t - t.emod d

/-- Go `a.Sub(b)` on our integer time model. -/
def timeSub (a b : Int) : Int := a - b

/-- The `metrics.RateTracker` struct (the mutex is not part of the purely
functional state). -/
structure RateTracker where
  /-- Requests per time bucket (`buckets []int`). -/
  buckets : List Int
  /-- Timestamp for each bucket (`timestamps []time.Time`). -/
  timestamps : List Int
  /-- Current position in the circular buffer. -/
  currentIndex : Nat
  /-- Duration of each time bucket. -/
  bucketSize : Int
  /-- Number of buckets to keep. -/
  windowSize : Nat
  /-- Total requests across all buckets. -/
  totalCount : Int
  deriving Repr, DecidableEq

/-- `NewRateTracker(bucketSize, windowSize)`.  A negative `windowSize`
makes Go's `make([]int, windowSize)` panic, modeled as `none`. -/
def NewRateTracker (bucketSize wsize : Int) : Option RateTracker :=
  if wsize < 0 then none
  else some
    { buckets := List.replicate wsize.toNat 0
      timestamps := List.replicate wsize.toNat 0
      currentIndex := 0
      bucketSize := bucketSize
      windowSize := wsize.toNat
      totalCount := 0 }

/-- `RecordN(t, n)`: find or create the bucket for `t`'s truncated
bucket time, advancing the circular cursor by one (and evicting the
overwritten slot's count) when the new bucket time is at least one full
`bucketSize` after the current slot's time; then add `n` to the current
bucket, to `totalCount`, and (unconditionally, as in the source) store
the bucket time into the current slot.  Panicking paths (index out of
range, `%` by zero) return `none`. -/
def RecordN (rt : RateTracker) (t n : Int) : Option RateTracker :=
  let bucketTime := timeTruncate t rt.bucketSize
  match rt.timestamps.get? rt.currentIndex with
  | none => none
  | some ts0 =>
    let step1 : Option RateTracker :=
      if (timeIsZero ts0 ∨ ts0 < bucketTime) ∧
         (¬ timeIsZero ts0 ∧ rt.bucketSize ≤ timeSub bucketTime ts0) then
        if rt.windowSize = 0 then none
        else
          let newIndex := (rt.currentIndex + 1) % rt.windowSize
          match rt.buckets.get? newIndex, rt.timestamps.get? newIndex with
          | some oldCount, some _ =>
            some { rt with
                   currentIndex := newIndex
                   totalCount := rt.totalCount - oldCount
                   buckets := rt.buckets.set newIndex 0
                   timestamps := rt.timestamps.set newIndex bucketTime }
          | _, _ => none
      else some rt
    match step1 with
    | none => none
    | some rt1 =>
      match rt1.buckets.get? rt1.currentIndex with
      | none => none
      | some cur =>
        some { rt1 with
               buckets := rt1.buckets.set rt1.currentIndex (cur + n)
               totalCount := rt1.totalCount + n
               timestamps := rt1.timestamps.set rt1.currentIndex bucketTime }

/-- `Record(t)` records a single request at the given time. -/
def Record (rt : RateTracker) (t : Int) : Option RateTracker :=
  RecordN rt t 1

/-- The `metrics.Stats` struct; the `float64` fields are modeled over `ℚ`. -/
structure Stats where
  Current : ℚ
  Peak : ℚ
  Average : ℚ
  Total : Int
  TrendChange : ℚ
  deriving Repr, DecidableEq

/-- The zero value `Stats{}` returned by `GetStats` for an empty tracker. -/
def zeroStats : Stats :=
  { Current := 0, Peak := 0, Average := 0, Total := 0, TrendChange := 0 }

/-- Accumulator of the bucket-scanning loop inside `GetStats`. -/
structure ScanAcc where
  validBuckets : Nat
  peak : Int
  recentTotal : Int
  previousTotal : Int
  deriving Repr, DecidableEq

/-- One iteration of the `GetStats` loop for bucket index `i`: skip
never-written slots and slots older than `bucketSize * windowSize`;
otherwise count the slot as valid, track the peak count, and add the
count to the recent-half or previous-half total according to whether the
slot's age is within `bucketSize * (windowSize / 2)`. -/
def scanStep (rt : RateTracker) (now : Int) (acc : ScanAcc) (i : Nat) : ScanAcc :=
  let ts := rt.timestamps.getD i 0
  if timeIsZero ts then acc
  else
    let age := timeSub now ts
    if rt.bucketSize * (rt.windowSize : Int) < age then acc
    else
      let b := rt.buckets.getD i 0
      let peak := if acc.peak < b then b else acc.peak
      let half := rt.bucketSize * ((rt.windowSize / 2 : Nat) : Int)
      if age ≤ half then
        { validBuckets := acc.validBuckets + 1
          peak := peak
          recentTotal := acc.recentTotal + b
          previousTotal := acc.previousTotal }
      else
        { validBuckets := acc.validBuckets + 1
          peak := peak
          recentTotal := acc.recentTotal
          previousTotal := acc.previousTotal + b }

/-- The full `for i := 0; i < rt.windowSize; i++` scan of `GetStats`. -/
def scanAll (rt : RateTracker) (now : Int) : ScanAcc :=
  (List.range rt.windowSize).foldl (scanStep rt now) ⟨0, 0, 0, 0⟩

/-- `GetStats()` at wall-clock time `now` (`time.Now()` is passed
explicitly).  Returns the zero `Stats` when `totalCount == 0` or when no
bucket is valid; otherwise computes the rates over `ℚ` exactly as the
`float64` code does. -/
def GetStats (rt : RateTracker) (now : Int) : Stats :=
  if rt.totalCount = 0 then zeroStats
  else
    let acc := scanAll rt now
    if acc.validBuckets = 0 then zeroStats
    else
      let bucketSeconds : ℚ := (rt.bucketSize : ℚ) / 1000000000
      { Current := (rt.buckets.getD rt.currentIndex 0 : ℚ) / bucketSeconds
        Peak := (acc.peak : ℚ) / bucketSeconds
        Average := (rt.totalCount : ℚ) / ((acc.validBuckets : ℚ) * bucketSeconds)
        Total := rt.totalCount
        TrendChange :=
          if 0 < acc.previousTotal then
            ((acc.recentTotal : ℚ) - (acc.previousTotal : ℚ)) /
              (acc.previousTotal : ℚ) * 100
          else 0 }

/-- `Reset()` clears all tracking data. -/
def Reset (rt : RateTracker) : RateTracker :=
  { rt with
    buckets := rt.buckets.map (fun _ => 0)
    timestamps := rt.timestamps.map (fun _ => 0)
    currentIndex := 0
    totalCount := 0 }

/-- Run a list of `RecordN` calls in order, propagating the panicking
(`none`) outcome. -/
def runRecords (rt : RateTracker) (l : List (Int × Int)) : Option RateTracker :=
  match l with
  | [] => some rt
  | (t, n) :: rest =>
    match RecordN rt t n with
    | none => none
    | some rt1 => runRecords rt1 rest

/-- States reachable from a freshly constructed tracker by any sequence
of `RecordN` (hence also `Record`) and `Reset` calls. -/
inductive Reachable : RateTracker → Prop
  | new (bucketSize wsize : Int) (rt : RateTracker) :
      NewRateTracker bucketSize wsize = some rt → Reachable rt
  | record (rt : RateTracker) (t n : Int) (rt1 : RateTracker) :
      Reachable rt → RecordN rt t n = some rt1 → Reachable rt1
  | reset (rt : RateTracker) : Reachable rt → Reachable (Reset rt)

/-- Structural well-formedness: both slices have length `windowSize` and
the cursor is in range. -/
def WF (rt : RateTracker) : Prop :=
  rt.buckets.length = rt.windowSize ∧
  rt.timestamps.length = rt.windowSize ∧
  rt.currentIndex < rt.windowSize

/-! ### List helper lemmas (over `Int` entries) -/

theorem get?_eq_some_getD : ∀ (l : List Int) (i : Nat), i < l.length →
    l.get? i = some (l.getD i 0) := by
  intro l
  induction l with
  | nil => intro i h; simp at h
  | cons a l ih =>
    intro i h
    cases i with
    | zero => rfl
    | succ j =>
      simp only [List.get?_cons_succ, List.getD_cons_succ]
      exact ih j (by simpa using h)

theorem getD_set_self : ∀ (l : List Int) (i : Nat) (x : Int), i < l.length →
    (l.set i x).getD i 0 = x := by
  intro l
  induction l with
  | nil => intro i x h; simp at h
  | cons a l ih =>
    intro i x h
    cases i with
    | zero => rfl
    | succ j =>
      simp only [List.set_cons_succ, List.getD_cons_succ]
      exact ih j x (by simpa using h)

theorem getD_set_ne : ∀ (l : List Int) (i j : Nat) (x : Int), i ≠ j →
    (l.set i x).getD j 0 = l.getD j 0 := by
  intro l
  induction l with
  | nil => intro i j x _; simp [List.set]
  | cons a l ih =>
    intro i j x hij
    cases i with
    | zero =>
      cases j with
      | zero => exact absurd rfl hij
      | succ j2 => rfl
    | succ i2 =>
      cases j with
      | zero => rfl
      | succ j2 =>
        simp only [List.set_cons_succ, List.getD_cons_succ]
        exact ih i2 j2 x (fun hh => hij (by rw [hh]))

theorem sum_set_eq : ∀ (l : List Int) (i : Nat) (x : Int), i < l.length →
    (l.set i x).sum = l.sum - l.getD i 0 + x := by
  intro l
  induction l with
  | nil => intro i x h; simp at h
  | cons a l ih =>
    intro i x h
    cases i with
    | zero => simp [List.getD_cons_zero]; ring
    | succ j =>
      simp only [List.set_cons_succ, List.sum_cons, List.getD_cons_succ]
      rw [ih j x (by simpa using h)]
      ring

theorem getD_replicate_zero : ∀ (n i : Nat), (List.replicate n (0:Int)).getD i 0 = 0 := by
  intro n
  induction n with
  | zero => intro i; rfl
  | succ m ih =>
    intro i
    cases i with
    | zero => rfl
    | succ j => simp [List.replicate_succ]

theorem sum_map_zero (l : List Int) : (l.map (fun _ => (0:Int))).sum = 0 := by
  induction l with
  | nil => rfl
  | cons a l ih => simp [ih]

theorem getD_map_zero (l : List Int) (i : Nat) :
    (l.map (fun _ => (0:Int))).getD i 0 = 0 := by
  induction l generalizing i with
  | nil => rfl
  | cons a l ih =>
    cases i with
    | zero => rfl
    | succ j => simp [ih]

theorem getD_eq_zero_of_len_le (l : List Int) (i : Nat) (h : l.length ≤ i) :
    l.getD i 0 = 0 := by
  induction l generalizing i with
  | nil => rfl
  | cons a l ih =>
    cases i with
    | zero => simp at h
    | succ j =>
      simp only [List.getD_cons_succ]
      exact ih j (by simpa using h)

/-! ### Characterization of the two paths through `RecordN` -/

/-- Path through `RecordN` that does not advance the cursor: the current
slot just absorbs the count and its timestamp is overwritten with the
new bucket time. -/
theorem recordN_no_advance (rt : RateTracker) (t n : Int)
    (hlt : rt.currentIndex < rt.timestamps.length)
    (hlb : rt.currentIndex < rt.buckets.length)
    (hcond : ¬ ((timeIsZero (rt.timestamps.getD rt.currentIndex 0) ∨
          rt.timestamps.getD rt.currentIndex 0 < timeTruncate t rt.bucketSize) ∧
        (¬ timeIsZero (rt.timestamps.getD rt.currentIndex 0) ∧
          rt.bucketSize ≤ timeSub (timeTruncate t rt.bucketSize)
            (rt.timestamps.getD rt.currentIndex 0)))) :
    RecordN rt t n = some { rt with
      buckets := rt.buckets.set rt.currentIndex (rt.buckets.getD rt.currentIndex 0 + n)
      totalCount := rt.totalCount + n
      timestamps := rt.timestamps.set rt.currentIndex (timeTruncate t rt.bucketSize) } := by
  unfold RecordN
  rw [get?_eq_some_getD rt.timestamps rt.currentIndex hlt]
  simp only [if_neg hcond]
  rw [get?_eq_some_getD rt.buckets rt.currentIndex hlb]

/-- Path through `RecordN` that advances the cursor: the next slot (in
circular order) is evicted — its old count leaves `totalCount` — and
then receives the new count `n` and the new bucket time. -/
theorem recordN_advance (rt : RateTracker) (t n : Int)
    (hlt : rt.currentIndex < rt.timestamps.length)
    (hw : rt.windowSize ≠ 0)
    (hkb : (rt.currentIndex + 1) % rt.windowSize < rt.buckets.length)
    (hkt : (rt.currentIndex + 1) % rt.windowSize < rt.timestamps.length)
    (hcond : (timeIsZero (rt.timestamps.getD rt.currentIndex 0) ∨
          rt.timestamps.getD rt.currentIndex 0 < timeTruncate t rt.bucketSize) ∧
        (¬ timeIsZero (rt.timestamps.getD rt.currentIndex 0) ∧
          rt.bucketSize ≤ timeSub (timeTruncate t rt.bucketSize)
            (rt.timestamps.getD rt.currentIndex 0))) :
    RecordN rt t n = some { rt with
      currentIndex := (rt.currentIndex + 1) % rt.windowSize
      totalCount := rt.totalCount
        - rt.buckets.getD ((rt.currentIndex + 1) % rt.windowSize) 0 + n
      buckets := rt.buckets.set ((rt.currentIndex + 1) % rt.windowSize) (0 + n)
      timestamps := rt.timestamps.set ((rt.currentIndex + 1) % rt.windowSize)
        (timeTruncate t rt.bucketSize) } := by
  unfold RecordN
  rw [get?_eq_some_getD rt.timestamps rt.currentIndex hlt]
  simp only [if_pos hcond, if_neg hw]
  rw [get?_eq_some_getD rt.buckets _ hkb, get?_eq_some_getD rt.timestamps _ hkt]
  have hkb2 : (rt.currentIndex + 1) % rt.windowSize <
      (rt.buckets.set ((rt.currentIndex + 1) % rt.windowSize) 0).length := by
    simpa using hkb
  simp only [get?_eq_some_getD _ _ hkb2]
  rw [getD_set_self rt.buckets _ 0 hkb]
  simp [List.set_set]

/-- Helper: a successful `get?` bounds the index. -/
theorem lt_length_of_get?_eq_some {l : List Int} {i : Nat} {x : Int}
    (h : l.get? i = some x) : i < l.length := by
  by_contra hge
  rw [List.get?_eq_none.mpr (by omega)] at h
  cases h

/-- Helper: a successful `get?` returns `getD`. -/
theorem getD_of_get?_eq_some {l : List Int} {i : Nat} {x : Int}
    (h : l.get? i = some x) : l.getD i 0 = x := by
  have hlt := lt_length_of_get?_eq_some h
  have := get?_eq_some_getD l i hlt
  rw [h] at this
  exact (Option.some_inj.mp this).symm

/-- Inversion principle for a successful `RecordN` call: either the call
did not advance (the cursor is unchanged and `n` lands in the current
slot) or it advanced the cursor by exactly one position modulo
`windowSize` (the overwritten slot's old count leaves `totalCount` and
the slot is rewritten with count `n` and the new bucket time). -/
theorem recordN_inversion (rt : RateTracker) (t n : Int) (rt1 : RateTracker)
    (h : RecordN rt t n = some rt1) :
    (∃ cur, rt.buckets.get? rt.currentIndex = some cur ∧
      rt1 = { rt with
        buckets := rt.buckets.set rt.currentIndex (cur + n)
        totalCount := rt.totalCount + n
        timestamps := rt.timestamps.set rt.currentIndex
          (timeTruncate t rt.bucketSize) }) ∨
    (∃ old, rt.windowSize ≠ 0 ∧
      rt.buckets.get? ((rt.currentIndex + 1) % rt.windowSize) = some old ∧
      rt1 = { rt with
        currentIndex := (rt.currentIndex + 1) % rt.windowSize
        totalCount := rt.totalCount - old + n
        buckets := rt.buckets.set ((rt.currentIndex + 1) % rt.windowSize) (0 + n)
        timestamps := rt.timestamps.set ((rt.currentIndex + 1) % rt.windowSize)
          (timeTruncate t rt.bucketSize) }) := by
  unfold RecordN at h
  cases hts : rt.timestamps.get? rt.currentIndex with
  | none => rw [hts] at h; simp at h
  | some ts0 =>
    rw [hts] at h
    simp only at h
    by_cases hcond : (timeIsZero ts0 ∨ ts0 < timeTruncate t rt.bucketSize) ∧
        (¬ timeIsZero ts0 ∧
          rt.bucketSize ≤ timeSub (timeTruncate t rt.bucketSize) ts0)
    · rw [if_pos hcond] at h
      by_cases hw : rt.windowSize = 0
      · rw [if_pos hw] at h; simp at h
      · rw [if_neg hw] at h
        cases hold : rt.buckets.get? ((rt.currentIndex + 1) % rt.windowSize) with
        | none => rw [hold] at h; simp at h
        | some old =>
          cases hts1 : rt.timestamps.get? ((rt.currentIndex + 1) % rt.windowSize) with
          | none => rw [hold, hts1] at h; simp at h
          | some ts1 =>
            rw [hold, hts1] at h
            simp only at h
            have hkb := lt_length_of_get?_eq_some hold
            have hkb2 : (rt.currentIndex + 1) % rt.windowSize <
                (rt.buckets.set ((rt.currentIndex + 1) % rt.windowSize) 0).length := by
              simpa using hkb
            rw [get?_eq_some_getD _ _ hkb2,
              getD_set_self _ _ _ hkb] at h
            simp only at h
            right
            refine ⟨old, hw, rfl, ?_⟩
            cases h
            simp [List.set_set]
    · rw [if_neg hcond] at h
      simp only at h
      cases hcur : rt.buckets.get? rt.currentIndex with
      | none => rw [hcur] at h; simp at h
      | some cur =>
        rw [hcur] at h
        simp only at h
        left
        refine ⟨cur, rfl, ?_⟩
        cases h
        rfl

/-- `RecordN` is total on well-formed trackers and preserves
well-formedness. -/
theorem recordN_total (rt : RateTracker) (t n : Int) (h : WF rt) :
    ∃ rt1, RecordN rt t n = some rt1 ∧ WF rt1 := by
  obtain ⟨hb, ht, hci⟩ := h
  have hw : rt.windowSize ≠ 0 := by omega
  have hk : (rt.currentIndex + 1) % rt.windowSize < rt.windowSize :=
    Nat.mod_lt _ (by omega)
  by_cases hcond : (timeIsZero (rt.timestamps.getD rt.currentIndex 0) ∨
        rt.timestamps.getD rt.currentIndex 0 < timeTruncate t rt.bucketSize) ∧
      (¬ timeIsZero (rt.timestamps.getD rt.currentIndex 0) ∧
        rt.bucketSize ≤ timeSub (timeTruncate t rt.bucketSize)
          (rt.timestamps.getD rt.currentIndex 0))
  · refine ⟨_, recordN_advance rt t n (by omega) hw (by omega) (by omega) hcond, ?_⟩
    refine ⟨by simpa using hb, by simpa using ht, by simpa using hk⟩
  · refine ⟨_, recordN_no_advance rt t n (by omega) (by omega) hcond, ?_⟩
    refine ⟨by simpa using hb, by simpa using ht, by simpa using hci⟩

/-! ### Claim C7: empty state -/

/-- C7: a freshly constructed tracker, and any tracker immediately after
a `Reset` call, returns from `GetStats` the exact zero-valued `Stats`
(`Current=0, Peak=0, Average=0, Total=0, TrendChange=0`); this is a
defined result, not an error. -/
theorem C7_empty_state :
    (∀ (bucketSize wsize : Int) (rt : RateTracker) (now : Int),
      NewRateTracker bucketSize wsize = some rt → GetStats rt now = zeroStats) ∧
    (∀ (rt : RateTracker) (now : Int), GetStats (Reset rt) now = zeroStats) := by
  constructor
  · intro bs ws rt now hnew
    unfold NewRateTracker at hnew
    split at hnew
    · cases hnew
    · cases hnew
      unfold GetStats
      simp
  · intro rt now
    unfold GetStats Reset
    simp

theorem C7_empty_state_witness :
    GetStats { buckets := [0, 0, 0], timestamps := [0, 0, 0], currentIndex := 0,
               bucketSize := 10, windowSize := 3, totalCount := 0 } 5 = zeroStats ∧
    GetStats (Reset { buckets := [4], timestamps := [70], currentIndex := 0,
                      bucketSize := 10, windowSize := 1, totalCount := 4 }) 5 = zeroStats :=
  ⟨C7_empty_state.1 10 3 _ 5 (by decide), C7_empty_state.2 _ 5⟩

/-! ### Claim C8: totality of the operations -/

/-- C8 counterexample: the claim quantifies over *any* parameter values,
but `NewRateTracker(d, -1)` panics (`make` with negative length), and on
a tracker built with `windowSize = 0` the very first `RecordN` panics
with an index-out-of-range (`timestamps[0]` on an empty slice).  Both
failing executions are modeled by `none`. -/
theorem C8_counterexample :
    NewRateTracker 10 (-1) = none ∧
    ((NewRateTracker 10 0).bind fun rt0 => RecordN rt0 5 1) = none := by
  decide

/-- C8 (amended): for every tracker produced by
`NewRateTracker(bucketDuration, windowSize)` with `windowSize ≥ 1`, and
for every timestamp (past, present or future) and every integer count,
`Record`/`RecordN`, `GetStats` and `Reset` complete without error or
panic and produce a deterministic result: construction succeeds for any
non-negative `windowSize` and yields a well-formed state, `RecordN` on a
well-formed state always succeeds and preserves well-formedness, and
`Reset` preserves well-formedness (`GetStats` is a total function of the
state by construction). -/
theorem C8_no_failure_modes :
    (∀ bucketSize wsize : Int, 0 ≤ wsize → (NewRateTracker bucketSize wsize).isSome = true) ∧
    (∀ (bucketSize wsize : Int) (rt : RateTracker),
      NewRateTracker bucketSize wsize = some rt → 1 ≤ wsize → WF rt) ∧
    (∀ (rt : RateTracker) (t n : Int), WF rt →
      ∃ rt1, RecordN rt t n = some rt1 ∧ WF rt1) ∧
    (∀ rt : RateTracker, WF rt → WF (Reset rt)) := by
  refine ⟨?_, ?_, recordN_total, ?_⟩
  · intro bs ws h
    unfold NewRateTracker
    rw [if_neg (by omega)]
    rfl
  · intro bs ws rt hnew hpos
    unfold NewRateTracker at hnew
    split at hnew
    · cases hnew
    · cases hnew
      refine ⟨by simp, by simp, ?_⟩
      simp only
      omega
  · intro rt h
    obtain ⟨hb2, ht, hci⟩ := h
    exact ⟨by simp [Reset, hb2], by simp [Reset, ht], by simp [Reset]; omega⟩

theorem C8_no_failure_modes_witness :
    ∃ rt1, RecordN { buckets := [0], timestamps := [0], currentIndex := 0,
                     bucketSize := 10, windowSize := 1, totalCount := 0 } 5 2 = some rt1 ∧ WF rt1 :=
  C8_no_failure_modes.2.2.1 _ 5 2 (by refine ⟨rfl, rfl, ?_⟩; decide)

/-! ### Claim C10: the cached total equals the sum of the buckets -/

/-- A successful `RecordN` preserves the `totalCount = Σ buckets`
equation. -/
theorem recordN_preserves_sum (rt : RateTracker) (t n : Int) (rt1 : RateTracker)
    (hrec : RecordN rt t n = some rt1)
    (hsum : rt.totalCount = rt.buckets.sum) :
    rt1.totalCount = rt1.buckets.sum := by
  rcases recordN_inversion rt t n rt1 hrec with ⟨cur, hcur, rfl⟩ | ⟨old, hw, hold, rfl⟩
  · have hlt := lt_length_of_get?_eq_some hcur
    have hgd := getD_of_get?_eq_some hcur
    simp only
    rw [sum_set_eq _ _ _ hlt, hgd, ← hsum]
    ring
  · have hlt := lt_length_of_get?_eq_some hold
    have hgd := getD_of_get?_eq_some hold
    simp only
    rw [sum_set_eq _ _ _ hlt, hgd, ← hsum]
    ring

/-- C10: in every state reachable from a freshly constructed tracker by
any sequence of `Record`, `RecordN` and `Reset` calls, the cached
`totalCount` field equals the sum of all entries of the `buckets` array
(`GetStats` is a pure function of the state and cannot disturb it). -/
theorem C10_totalCount_eq_sum (rt : RateTracker) (h : Reachable rt) :
    rt.totalCount = rt.buckets.sum := by
  induction h with
  | new bs ws rt hnew =>
    unfold NewRateTracker at hnew
    split at hnew
    · cases hnew
    · cases hnew
      simp [List.sum_replicate]
  | record rt t n rt1 _ hrec ih => exact recordN_preserves_sum rt t n rt1 hrec ih
  | reset rt _ _ => simp [Reset, sum_map_zero]

theorem C10_totalCount_eq_sum_witness :
    ({ buckets := [0, 0], timestamps := [0, 0], currentIndex := 0,
       bucketSize := 10, windowSize := 2, totalCount := 0 } : RateTracker).totalCount =
    ({ buckets := [0, 0], timestamps := [0, 0], currentIndex := 0,
       bucketSize := 10, windowSize := 2, totalCount := 0 } : RateTracker).buckets.sum :=
  C10_totalCount_eq_sum _ (Reachable.new 10 2 _ (by decide))

/-! ### Claim C1: advancement moves the cursor by exactly one slot -/

/-- C1: on a well-formed tracker whose current slot has been written
(non-zero represented time — the state reached as soon as some bucket
has been written, per the spec's advance rule), a `RecordN(t, n)` call
whose truncated bucket time is later than the current slot's represented
time by at least one full (positive) `bucketDuration` advances
`currentIndex` by exactly one position modulo `windowSize`, subtracts
the overwritten slot's old count from `totalCount`, zeroes that slot's
count (so that it ends holding exactly the new count `n`), and sets its
represented time to the new bucket time; and no single `RecordN` call
ever moves `currentIndex` other than keeping it or advancing it by one
position modulo `windowSize`. -/
theorem C1_advance_by_one :
    (∀ (rt : RateTracker) (t n : Int), WF rt → 0 < rt.bucketSize →
      rt.timestamps.getD rt.currentIndex 0 ≠ 0 →
      rt.bucketSize ≤
        timeTruncate t rt.bucketSize - rt.timestamps.getD rt.currentIndex 0 →
      ∃ rt1, RecordN rt t n = some rt1 ∧
        rt1.currentIndex = (rt.currentIndex + 1) % rt.windowSize ∧
        rt1.totalCount = rt.totalCount
          - rt.buckets.getD ((rt.currentIndex + 1) % rt.windowSize) 0 + n ∧
        rt1.buckets.getD ((rt.currentIndex + 1) % rt.windowSize) 0 = n ∧
        rt1.timestamps.getD ((rt.currentIndex + 1) % rt.windowSize) 0 =
          timeTruncate t rt.bucketSize) ∧
    (∀ (rt : RateTracker) (t n : Int) (rt1 : RateTracker),
      RecordN rt t n = some rt1 →
      rt1.currentIndex = rt.currentIndex ∨
      rt1.currentIndex = (rt.currentIndex + 1) % rt.windowSize) := by
  constructor
  · intro rt t n hwf hbs hts0 hlate
    obtain ⟨hb, ht, hci⟩ := hwf
    have hw : rt.windowSize ≠ 0 := by omega
    have hk : (rt.currentIndex + 1) % rt.windowSize < rt.windowSize :=
      Nat.mod_lt _ (by omega)
    have hcond : (timeIsZero (rt.timestamps.getD rt.currentIndex 0) ∨
          rt.timestamps.getD rt.currentIndex 0 < timeTruncate t rt.bucketSize) ∧
        (¬ timeIsZero (rt.timestamps.getD rt.currentIndex 0) ∧
          rt.bucketSize ≤ timeSub (timeTruncate t rt.bucketSize)
            (rt.timestamps.getD rt.currentIndex 0)) := by
      refine ⟨Or.inr (by omega), hts0, by unfold timeSub; omega⟩
    refine ⟨_, recordN_advance rt t n (by omega) hw (by omega) (by omega) hcond,
      rfl, rfl, ?_, ?_⟩
    · simpa using getD_set_self rt.buckets _ (0 + n) (by omega)
    · exact getD_set_self rt.timestamps _ _ (by omega)
  · intro rt t n rt1 hrec
    rcases recordN_inversion rt t n rt1 hrec with ⟨cur, _, rfl⟩ | ⟨old, _, _, rfl⟩
    · exact Or.inl rfl
    · exact Or.inr rfl

theorem C1_advance_by_one_witness :
    ∃ rt1, RecordN { buckets := [5, 0], timestamps := [10, 0], currentIndex := 0,
                     bucketSize := 10, windowSize := 2, totalCount := 5 } 25 3 = some rt1 ∧
      rt1.currentIndex = (0 + 1) % 2 ∧
      rt1.totalCount = 5 - [5, 0].getD ((0 + 1) % 2) 0 + 3 ∧
      rt1.buckets.getD ((0 + 1) % 2) 0 = 3 ∧
      rt1.timestamps.getD ((0 + 1) % 2) 0 = timeTruncate 25 10 :=
  C1_advance_by_one.1 _ 25 3 (by refine ⟨rfl, rfl, ?_⟩; decide) (by decide)
    (by decide) (by decide)

/-! ### Generic lemmas about the `GetStats` scan -/

/-- A slot is counted by the scan iff its timestamp is non-zero and its
age does not exceed `bucketSize * windowSize`. -/
def validSlot (rt : RateTracker) (now : Int) (i : Nat) : Prop :=
  rt.timestamps.getD i 0 ≠ 0 ∧
  ¬ (rt.bucketSize * (rt.windowSize : Int) < now - rt.timestamps.getD i 0)

instance (rt : RateTracker) (now : Int) (i : Nat) :
    Decidable (validSlot rt now i) :=
  inferInstanceAs (Decidable (_ ∧ _))

theorem scanStep_invalid (rt : RateTracker) (now : Int) (acc : ScanAcc) (i : Nat)
    (h : ¬ validSlot rt now i) : scanStep rt now acc i = acc := by
  unfold scanStep
  by_cases h1 : timeIsZero (rt.timestamps.getD i 0)
  · rw [if_pos h1]
  · rw [if_neg h1]
    have h2 : rt.bucketSize * (rt.windowSize : Int) <
        now - rt.timestamps.getD i 0 := by
      rcases not_and_or.mp (fun hc => h hc) with h3 | h3
      · exact absurd (by simpa [timeIsZero] using h1) (by simpa using h3)
      · exact not_not.mp h3
    rw [if_pos (by simpa [timeSub] using h2)]

theorem scanStep_valid (rt : RateTracker) (now : Int) (acc : ScanAcc) (i : Nat)
    (h : validSlot rt now i) :
    (scanStep rt now acc i).validBuckets = acc.validBuckets + 1 ∧
    (scanStep rt now acc i).peak = max acc.peak (rt.buckets.getD i 0) := by
  obtain ⟨h1, h2⟩ := h
  have h1x : ¬ timeIsZero (rt.timestamps.getD i 0) := by simpa [timeIsZero] using h1
  have h2x : ¬ (rt.bucketSize * (rt.windowSize : Int) <
      timeSub now (rt.timestamps.getD i 0)) := by simpa [timeSub] using h2
  have hmax : (if acc.peak < rt.buckets.getD i 0 then rt.buckets.getD i 0
      else acc.peak) = max acc.peak (rt.buckets.getD i 0) := by
    rcases lt_or_le acc.peak (rt.buckets.getD i 0) with hlt | hle
    · rw [if_pos hlt, max_eq_right hlt.le]
    · rw [if_neg (not_lt.mpr hle), max_eq_left hle]
  simp only [scanStep, if_neg h1x, if_neg h2x]
  constructor
  · split <;> rfl
  · split <;> exact hmax

theorem scanStep_validBuckets_le (rt : RateTracker) (now : Int) (acc : ScanAcc)
    (i : Nat) : acc.validBuckets ≤ (scanStep rt now acc i).validBuckets := by
  by_cases h : validSlot rt now i
  · rw [(scanStep_valid rt now acc i h).1]; omega
  · rw [scanStep_invalid rt now acc i h]

theorem foldl_scan_validBuckets_le (rt : RateTracker) (now : Int) :
    ∀ (L : List Nat) (acc : ScanAcc),
      acc.validBuckets ≤ (L.foldl (scanStep rt now) acc).validBuckets := by
  intro L
  induction L with
  | nil => intro acc; exact le_refl _
  | cons i L ih =>
    intro acc
    exact le_trans (scanStep_validBuckets_le rt now acc i) (ih _)

theorem foldl_scan_validBuckets_pos (rt : RateTracker) (now : Int) :
    ∀ (L : List Nat) (acc : ScanAcc) (i : Nat), i ∈ L → validSlot rt now i →
      1 ≤ (L.foldl (scanStep rt now) acc).validBuckets := by
  intro L
  induction L with
  | nil => intro acc i hmem; cases hmem
  | cons j L ih =>
    intro acc i hmem hvalid
    rcases List.mem_cons.mp hmem with rfl | hmem2
    · calc 1 ≤ (scanStep rt now acc i).validBuckets := by
            rw [(scanStep_valid rt now acc i hvalid).1]; omega
        _ ≤ _ := foldl_scan_validBuckets_le rt now L _
    · exact ih _ i hmem2 hvalid

theorem scanAll_validBuckets_ne_zero (rt : RateTracker) (now : Int) (i : Nat)
    (hi : i < rt.windowSize) (hvalid : validSlot rt now i) :
    (scanAll rt now).validBuckets ≠ 0 := by
  have := foldl_scan_validBuckets_pos rt now (List.range rt.windowSize) ⟨0, 0, 0, 0⟩
    i (List.mem_range.mpr hi) hvalid
  unfold scanAll
  omega

/-- If the scan does not count any slot, it leaves the accumulator
untouched. -/
theorem foldl_scan_stationary (rt : RateTracker) (now : Int) :
    ∀ (L : List Nat) (acc : ScanAcc),
      (L.foldl (scanStep rt now) acc).validBuckets = acc.validBuckets →
      L.foldl (scanStep rt now) acc = acc := by
  intro L
  induction L with
  | nil => intro acc _; rfl
  | cons i L ih =>
    intro acc h
    by_cases hv : validSlot rt now i
    · exfalso
      have h1 := (scanStep_valid rt now acc i hv).1
      have h2 := foldl_scan_validBuckets_le rt now L (scanStep rt now acc i)
      simp only [List.foldl_cons] at h
      omega
    · rw [List.foldl_cons, scanStep_invalid rt now acc i hv] at h ⊢
      exact ih acc h

/-- Explicit form of `GetStats` away from the two zero-return cases. -/
theorem getStats_spec (rt : RateTracker) (now : Int)
    (h0 : rt.totalCount ≠ 0) (hvb : (scanAll rt now).validBuckets ≠ 0) :
    GetStats rt now =
      { Current := (rt.buckets.getD rt.currentIndex 0 : ℚ) /
          ((rt.bucketSize : ℚ) / 1000000000)
        Peak := ((scanAll rt now).peak : ℚ) / ((rt.bucketSize : ℚ) / 1000000000)
        Average := (rt.totalCount : ℚ) /
          (((scanAll rt now).validBuckets : ℚ) * ((rt.bucketSize : ℚ) / 1000000000))
        Total := rt.totalCount
        TrendChange :=
          if 0 < (scanAll rt now).previousTotal then
            (((scanAll rt now).recentTotal : ℚ) - ((scanAll rt now).previousTotal : ℚ)) /
              ((scanAll rt now).previousTotal : ℚ) * 100
          else 0 } := by
  unfold GetStats
  rw [if_neg h0, if_neg hvb]

/-! ### Claim C6: k events in one bucket give Current = k / seconds -/

/-- State of a tracker that has only ever filled its first slot: bucket
time `b`, count `k`, `m + 1` slots in total. -/
def singleState (bs : Int) (m : Nat) (b k : Int) : RateTracker :=
  { buckets := k :: List.replicate m 0
    timestamps := b :: List.replicate m 0
    currentIndex := 0
    bucketSize := bs
    windowSize := m + 1
    totalCount := k }

theorem record_fresh_step (bs : Int) (m : Nat) (t : Int) :
    RecordN { buckets := List.replicate (m + 1) 0
              timestamps := List.replicate (m + 1) 0
              currentIndex := 0
              bucketSize := bs
              windowSize := m + 1
              totalCount := 0 } t 1 =
    some (singleState bs m (timeTruncate t bs) 1) := by
  rw [recordN_no_advance _ t 1 (by simp) (by simp) ?_]
  · simp [singleState, List.replicate_succ]
  · intro hcond
    have h0 : (List.replicate (m + 1) (0:Int)).getD 0 0 = 0 := getD_replicate_zero _ _
    simp only at hcond
    rw [h0] at hcond
    exact hcond.2.1 rfl

theorem record_single_step (bs : Int) (m : Nat) (b k t : Int)
    (hb : b ≠ 0) (ht : timeTruncate t bs = b) :
    RecordN (singleState bs m b k) t 1 = some (singleState bs m b (k + 1)) := by
  rw [recordN_no_advance _ t 1 (by simp [singleState]) (by simp [singleState]) ?_]
  · simp [singleState, ht]
  · intro hcond
    have h0 : (singleState bs m b k).timestamps.getD 0 0 = b := rfl
    simp only [singleState] at hcond
    rw [ht] at hcond
    rcases hcond.1 with h | h
    · exact hb (by simpa [timeIsZero] using h)
    · simp only [List.getD_cons_zero] at h
      exact lt_irrefl b h

theorem record_single_run (bs : Int) (m : Nat) (b : Int) (hb : b ≠ 0) :
    ∀ (l : List Int) (k : Int), (∀ t ∈ l, timeTruncate t bs = b) →
    runRecords (singleState bs m b k) (l.map (fun t => (t, 1))) =
      some (singleState bs m b (k + l.length)) := by
  intro l
  induction l with
  | nil => intro k _; simp [runRecords]
  | cons t rest ih =>
    intro k hall
    have hstep := record_single_step bs m b k t hb (hall t (List.mem_cons_self t rest))
    simp only [List.map_cons, runRecords, hstep]
    rw [ih (k + 1) (fun u hu => hall u (List.mem_cons_of_mem t hu))]
    congr 1
    unfold singleState
    simp only [RateTracker.mk.injEq, and_true, true_and, List.length_cons]
    constructor
    · congr 1
      push_cast
      ring
    · push_cast
      ring

/-- C6: for every `k ≥ 1`, recording exactly `k` events (as a list of
single-event `RecordN t 1` calls) whose timestamps all truncate to one
non-zero bucket time on a fresh tracker (positive `bucketDuration`,
`windowSize ≥ 1`), and calling `GetStats` while that bucket is still
inside the window, yields `Current = k / bucketDuration.Seconds()`. -/
theorem C6_single_bucket_current (bucketSize wsize : Int) (rt0 : RateTracker)
    (l : List Int) (b now : Int)
    (hnew : NewRateTracker bucketSize wsize = some rt0) (hws : 1 ≤ wsize)
    (_hbs : 0 < bucketSize) (hne : l ≠ [])
    (hall : ∀ t ∈ l, timeTruncate t bucketSize = b) (hb : b ≠ 0)
    (hnow : now - b ≤ bucketSize * wsize) :
    ∃ rt, runRecords rt0 (l.map (fun t => (t, 1))) = some rt ∧
      (GetStats rt now).Current = (l.length : ℚ) / ((bucketSize : ℚ) / 1000000000) := by
  obtain ⟨m, hm⟩ : ∃ m : Nat, wsize.toNat = m + 1 := ⟨wsize.toNat - 1, by omega⟩
  unfold NewRateTracker at hnew
  split at hnew
  · cases hnew
  · cases hnew
    cases l with
    | nil => exact absurd rfl hne
    | cons t rest =>
      have hb1 : timeTruncate t bucketSize = b := hall t (List.mem_cons_self t rest)
      refine ⟨singleState bucketSize m b (1 + rest.length), ?_, ?_⟩
      · simp only [List.map_cons, runRecords]
        rw [hm]
        rw [record_fresh_step bucketSize m t, hb1]
        exact record_single_run bucketSize m b hb rest 1
          (fun u hu => hall u (List.mem_cons_of_mem t hu))
      · have hvalid : validSlot (singleState bucketSize m b (1 + rest.length)) now 0 := by
          refine ⟨by simpa [singleState] using hb, ?_⟩
          simp only [singleState, List.getD_cons_zero, not_lt]
          have : ((m : Int) + 1) = wsize := by omega
          push_cast
          rw [this]
          omega
        have htot : (singleState bucketSize m b (1 + rest.length)).totalCount ≠ 0 := by
          simp only [singleState]
          have : (0:Int) ≤ rest.length := Int.ofNat_nonneg _
          omega
        rw [getStats_spec _ now htot
          (scanAll_validBuckets_ne_zero _ now 0 (by simp [singleState]) hvalid)]
        simp only [singleState, List.getD_cons_zero, List.length_cons]
        push_cast
        ring

theorem C6_single_bucket_current_witness :
    ∃ rt, runRecords { buckets := [0, 0], timestamps := [0, 0], currentIndex := 0,
                       bucketSize := 10, windowSize := 2, totalCount := 0 }
        ([25, 21, 29].map (fun t => (t, 1))) = some rt ∧
      (GetStats rt 30).Current = ((3 : Nat) : ℚ) / ((10 : ℚ) / 1000000000) :=
  C6_single_bucket_current 10 2 _ [25, 21, 29] 20 30 (by decide) (by decide)
    (by decide) (by decide) (by decide) (by decide) (by decide)

/-! ### Claim C4: trend change -/

/-- C4 counterexample: on a fresh `NewRateTracker(10, 2)` tracker,
record 100 events in the bucket nearest to "now" and none in the far
half.  The recent-half sum (100) strictly exceeds the previous-half sum
(0), yet `TrendChange` is `0`, not `> 0` as the claim requires, because
the code returns `0` whenever the previous-half sum is not positive. -/
theorem C4_counterexample :
    (((NewRateTracker 10 2).bind fun rt0 => runRecords rt0 [(10, 100)]).map
      fun rt => ((scanAll rt 10).recentTotal, (scanAll rt 10).previousTotal,
        (GetStats rt 10).TrendChange)) = some (100, 0, 0) := by
  decide

/-- C4 (amended): `GetStats` computes `TrendChange` from the half-window
split performed by the scan: whenever the previous-half sum is zero (or,
more generally, not positive) `TrendChange` is exactly `0`; when the
previous-half sum is positive, `TrendChange = (recent - previous) /
previous * 100`, so more events in the near half than the far half
yields `TrendChange > 0`, the reverse yields `TrendChange < 0`, and
equal halves yield `TrendChange = 0`. -/
theorem C4_trend_change (rt : RateTracker) (now : Int)
    (htot : rt.totalCount ≠ 0) :
    ((scanAll rt now).previousTotal = 0 → (GetStats rt now).TrendChange = 0) ∧
    (0 < (scanAll rt now).previousTotal →
      ((GetStats rt now).TrendChange =
        (((scanAll rt now).recentTotal : ℚ) - ((scanAll rt now).previousTotal : ℚ)) /
          ((scanAll rt now).previousTotal : ℚ) * 100) ∧
      ((scanAll rt now).previousTotal < (scanAll rt now).recentTotal →
        0 < (GetStats rt now).TrendChange) ∧
      ((scanAll rt now).recentTotal < (scanAll rt now).previousTotal →
        (GetStats rt now).TrendChange < 0) ∧
      ((scanAll rt now).recentTotal = (scanAll rt now).previousTotal →
        (GetStats rt now).TrendChange = 0)) := by
  constructor
  · intro hprev
    by_cases hvb : (scanAll rt now).validBuckets = 0
    · unfold GetStats
      rw [if_neg htot]
      simp only [hvb, if_pos rfl]
      rfl
    · rw [getStats_spec rt now htot hvb]
      simp only [hprev]
      norm_num
  · intro hprev
    have hvb : (scanAll rt now).validBuckets ≠ 0 := by
      intro hvb0
      have := foldl_scan_stationary rt now (List.range rt.windowSize) ⟨0, 0, 0, 0⟩
        (by unfold scanAll at hvb0; rw [hvb0])
      unfold scanAll at hprev
      rw [this] at hprev
      exact lt_irrefl 0 hprev
    rw [getStats_spec rt now htot hvb]
    simp only [if_pos hprev]
    have hp : (0 : ℚ) < ((scanAll rt now).previousTotal : ℚ) := by
      exact_mod_cast hprev
    refine ⟨trivial, ?_, ?_, ?_⟩
    · intro hlt
      have : (0 : ℚ) < ((scanAll rt now).recentTotal : ℚ) -
          ((scanAll rt now).previousTotal : ℚ) := by
        have : ((scanAll rt now).previousTotal : ℚ) <
            ((scanAll rt now).recentTotal : ℚ) := by exact_mod_cast hlt
        linarith
      positivity
    · intro hlt
      apply mul_neg_of_neg_of_pos
      · apply div_neg_of_neg_of_pos _ hp
        have : ((scanAll rt now).recentTotal : ℚ) <
            ((scanAll rt now).previousTotal : ℚ) := by exact_mod_cast hlt
        linarith
      · norm_num
    · intro heq
      rw [heq]
      simp

theorem C4_trend_change_witness :
    0 < (scanAll { buckets := [5, 1], timestamps := [100, 80], currentIndex := 0,
                   bucketSize := 10, windowSize := 2, totalCount := 6 } 100).previousTotal ∧
    0 < (GetStats { buckets := [5, 1], timestamps := [100, 80], currentIndex := 0,
                    bucketSize := 10, windowSize := 2, totalCount := 6 } 100).TrendChange :=
  ⟨by decide,
    ((C4_trend_change _ 100 (by decide)).2 (by decide)).2.1 (by decide)⟩

/-! ### Claim C5: peak and the valid-bucket filter -/

/-- The counts of the valid buckets, in scan order. -/
def validCounts (rt : RateTracker) (now : Int) : List Int :=
  ((List.range rt.windowSize).filter (fun i => decide (validSlot rt now i))).map
    (fun i => rt.buckets.getD i 0)

theorem foldl_scan_char (rt : RateTracker) (now : Int) :
    ∀ (L : List Nat) (acc : ScanAcc),
      (L.foldl (scanStep rt now) acc).validBuckets =
        acc.validBuckets +
          (L.filter (fun i => decide (validSlot rt now i))).length ∧
      (L.foldl (scanStep rt now) acc).peak =
        (L.filter (fun i => decide (validSlot rt now i))).foldl
          (fun p i => max p (rt.buckets.getD i 0)) acc.peak := by
  intro L
  induction L with
  | nil => intro acc; exact ⟨rfl, rfl⟩
  | cons i L ih =>
    intro acc
    by_cases hv : validSlot rt now i
    · have hstep := scanStep_valid rt now acc i hv
      have hih := ih (scanStep rt now acc i)
      have hfilter : (i :: L).filter (fun j => decide (validSlot rt now j)) =
          i :: L.filter (fun j => decide (validSlot rt now j)) := by
        simp [List.filter_cons, hv]
      rw [hfilter]
      constructor
      · simp only [List.foldl_cons]
        rw [hih.1, hstep.1, List.length_cons]
        omega
      · simp only [List.foldl_cons]
        rw [hih.2, hstep.2]
    · have hstep := scanStep_invalid rt now acc i hv
      have hfilter : (i :: L).filter (fun j => decide (validSlot rt now j)) =
          L.filter (fun j => decide (validSlot rt now j)) := by
        simp [List.filter_cons, hv]
      rw [hfilter]
      simp only [List.foldl_cons, hstep]
      exact ih acc

theorem scanAll_validBuckets_eq (rt : RateTracker) (now : Int) :
    (scanAll rt now).validBuckets = (validCounts rt now).length := by
  unfold scanAll validCounts
  rw [(foldl_scan_char rt now (List.range rt.windowSize) ⟨0, 0, 0, 0⟩).1,
    List.length_map]
  simp

theorem scanAll_peak_eq (rt : RateTracker) (now : Int) :
    (scanAll rt now).peak = (validCounts rt now).foldl max 0 := by
  unfold scanAll validCounts
  rw [(foldl_scan_char rt now (List.range rt.windowSize) ⟨0, 0, 0, 0⟩).2,
    List.foldl_map]

theorem foldl_max_is_ub (l : List Int) :
    ∀ a : Int, a ≤ l.foldl max a ∧ ∀ x ∈ l, x ≤ l.foldl max a := by
  induction l with
  | nil => intro a; exact ⟨le_refl a, by intro x hx; cases hx⟩
  | cons b l ih =>
    intro a
    have h1 := ih (max a b)
    refine ⟨le_trans (le_max_left a b) h1.1, ?_⟩
    intro x hx
    rcases List.mem_cons.mp hx with rfl | hx2
    · exact le_trans (le_max_right a x) h1.1
    · exact h1.2 x hx2

theorem foldl_max_mem (l : List Int) :
    ∀ a : Int, l.foldl max a = a ∨ l.foldl max a ∈ l := by
  induction l with
  | nil => intro a; exact Or.inl rfl
  | cons b l ih =>
    intro a
    rcases ih (max a b) with h | h
    · simp only [List.foldl_cons] at *
      rcases max_choice a b with hm | hm
      · exact Or.inl (by rw [h, hm])
      · exact Or.inr (by rw [h, hm]; exact List.mem_cons_self b l)
    · exact Or.inr (List.mem_cons_of_mem b h)

/-- C5 counterexample: record one event at time 10 and one at time 1000
on `NewRateTracker(10, 2)` and query at `now = 1000`.  The slot with
timestamp 10 is outside the valid window, so the only valid bucket has
count 1 — yet `Average = 200000000` req/s, i.e. `totalCount = 2`
(including the stale bucket) divided by one valid bucket's seconds,
not `1 / (1 * 10ns) = 100000000`: buckets outside the valid window do
contribute to `Average`'s numerator, contradicting the claim. -/
theorem C5_counterexample :
    (((NewRateTracker 10 2).bind fun rt0 => runRecords rt0 [(10, 1), (1000, 1)]) =
      some { buckets := [1, 1], timestamps := [10, 1000], currentIndex := 1,
             bucketSize := 10, windowSize := 2, totalCount := 2 }) ∧
    validCounts { buckets := [1, 1], timestamps := [10, 1000], currentIndex := 1,
                  bucketSize := 10, windowSize := 2, totalCount := 2 } 1000 = [1] ∧
    (GetStats { buckets := [1, 1], timestamps := [10, 1000], currentIndex := 1,
                bucketSize := 10, windowSize := 2, totalCount := 2 } 1000).Average =
      (2 : ℚ) / ((1 : ℚ) * ((10 : ℚ) / 1000000000)) ∧
    (2 : ℚ) / ((1 : ℚ) * ((10 : ℚ) / 1000000000)) ≠
      (1 : ℚ) / ((1 : ℚ) * ((10 : ℚ) / 1000000000)) := by
  refine ⟨by decide, by decide, ?_, by norm_num⟩
  rw [getStats_spec _ 1000 (by decide) (by decide)]
  have hvb : (scanAll { buckets := [1, 1], timestamps := [10, 1000], currentIndex := 1,
                        bucketSize := 10, windowSize := 2, totalCount := 2 }
      1000).validBuckets = 1 := by
    decide
  rw [hvb]
  norm_num

/-- C5 (amended): whenever `totalCount ≠ 0`, at least one bucket is
valid, and the valid buckets' counts are non-negative, `GetStats().Peak`
equals the maximum valid bucket count divided by the bucket duration in
seconds, where a bucket is valid exactly when its represented timestamp
is non-zero and its age does not exceed `windowSize * bucketDuration`;
invalid buckets contribute neither to `Peak` nor to the valid-bucket
count in `Average`'s denominator, but their counts remain in
`totalCount`, which is `Average`'s numerator. -/
theorem C5_peak_correctness (rt : RateTracker) (now : Int)
    (htot : rt.totalCount ≠ 0) (hne : validCounts rt now ≠ [])
    (hnn : ∀ c ∈ validCounts rt now, 0 ≤ c) :
    ∃ mx, mx ∈ validCounts rt now ∧ (∀ c ∈ validCounts rt now, c ≤ mx) ∧
      (GetStats rt now).Peak = (mx : ℚ) / ((rt.bucketSize : ℚ) / 1000000000) ∧
      (GetStats rt now).Average = (rt.totalCount : ℚ) /
        (((validCounts rt now).length : ℚ) * ((rt.bucketSize : ℚ) / 1000000000)) := by
  have hvb : (scanAll rt now).validBuckets ≠ 0 := by
    rw [scanAll_validBuckets_eq]
    intro hlen
    exact hne (List.eq_nil_of_length_eq_zero hlen)
  have hub := foldl_max_is_ub (validCounts rt now) 0
  have hmem : (validCounts rt now).foldl max 0 ∈ validCounts rt now := by
    rcases foldl_max_mem (validCounts rt now) 0 with h | h
    · obtain ⟨c, hc⟩ := List.exists_mem_of_ne_nil (validCounts rt now) hne
      have hc1 : c ≤ (validCounts rt now).foldl max 0 := hub.2 c hc
      have hc2 : 0 ≤ c := hnn c hc
      have : c = (validCounts rt now).foldl max 0 := by omega
      rw [← this]
      exact hc
    · exact h
  refine ⟨(validCounts rt now).foldl max 0, hmem, hub.2, ?_, ?_⟩
  · rw [getStats_spec rt now htot hvb]
    rw [scanAll_peak_eq]
  · rw [getStats_spec rt now htot hvb]
    rw [scanAll_validBuckets_eq]

theorem C5_peak_correctness_witness :
    ∃ mx, mx ∈ validCounts { buckets := [3, 7], timestamps := [100, 90],
                             currentIndex := 0, bucketSize := 10, windowSize := 2,
                             totalCount := 10 } 100 ∧
      (∀ c ∈ validCounts { buckets := [3, 7], timestamps := [100, 90],
                           currentIndex := 0, bucketSize := 10, windowSize := 2,
                           totalCount := 10 } 100, c ≤ mx) ∧
      (GetStats { buckets := [3, 7], timestamps := [100, 90], currentIndex := 0,
                  bucketSize := 10, windowSize := 2, totalCount := 10 } 100).Peak =
        (mx : ℚ) / ((10 : ℚ) / 1000000000) ∧
      (GetStats { buckets := [3, 7], timestamps := [100, 90], currentIndex := 0,
                  bucketSize := 10, windowSize := 2, totalCount := 10 } 100).Average =
        ((10 : Int) : ℚ) /
          (((validCounts { buckets := [3, 7], timestamps := [100, 90],
                           currentIndex := 0, bucketSize := 10, windowSize := 2,
                           totalCount := 10 } 100).length : ℚ) *
            ((10 : ℚ) / 1000000000)) :=
  C5_peak_correctness _ 100 (by decide) (by decide) (by decide)

/-! ### Claim C2: conservation of the total -/

theorem dvd_timeTruncate (t d : Int) (hd : 0 < d) : d ∣ timeTruncate t d := by
  unfold timeTruncate
  rw [if_neg (not_le.mpr hd)]
  refine ⟨t / d, ?_⟩
  have h1 : t.emod d = t % d := rfl
  have h2 := Int.ediv_add_emod t d
  rw [h1]
  linarith

theorem gap_ge_of_dvd (d x y : Int) (_hd : 0 < d) (hx : d ∣ x) (hy : d ∣ y)
    (hxy : x < y) : x + d ≤ y := by
  have h1 : d ∣ y - x := dvd_sub hy hx
  have h2 : d ≤ y - x := Int.le_of_dvd (by omega) h1
  omega

/-- Invariant of a tracker that has been filled with non-decreasing
bucket times spanning at most `windowSize` buckets starting at `b0`;
`m` is the current (largest) bucket time. -/
structure Inv2 (bs : Int) (W : Nat) (b0 m : Int) (rt : RateTracker) : Prop where
  hbse : rt.bucketSize = bs
  hwse : rt.windowSize = W
  hlb : rt.buckets.length = W
  hltl : rt.timestamps.length = W
  hci : rt.currentIndex < W
  hcur : rt.timestamps.getD rt.currentIndex 0 = m
  hb0m : b0 ≤ m
  hdvd : bs ∣ m
  hslots : (rt.currentIndex : Int) * bs ≤ m - b0
  hzero : ∀ j : Nat, rt.currentIndex < j → j < W → rt.buckets.getD j 0 = 0

theorem inv2_first (bs : Int) (W : Nat) (t n : Int) (hbs : 0 < bs) (hW : 0 < W) :
    ∃ rt1, RecordN { buckets := List.replicate W 0, timestamps := List.replicate W 0,
                     currentIndex := 0, bucketSize := bs, windowSize := W,
                     totalCount := 0 } t n = some rt1 ∧
      Inv2 bs W (timeTruncate t bs) (timeTruncate t bs) rt1 ∧
      rt1.totalCount = n := by
  have hrep : ∀ j : Nat, (List.replicate W (0:Int)).getD j 0 = 0 := getD_replicate_zero W
  refine ⟨_, recordN_no_advance _ t n (by simp; omega) (by simp; omega) ?_, ?_, ?_⟩
  · intro hc
    exact hc.2.1 (by simp [timeIsZero, hrep])
  · constructor
    · rfl
    · rfl
    · simp
    · simp
    · simpa using hW
    · simpa using getD_set_self (List.replicate W 0) 0 (timeTruncate t bs)
        (by simpa using hW)
    · exact le_refl _
    · exact dvd_timeTruncate t bs hbs
    · simp
    · intro j h0j hjW
      have h0j2 : (0 : Nat) < j := h0j
      have hne : (0 : Nat) ≠ j := by omega
      simp only
      rw [getD_set_ne _ _ _ _ hne]
      exact hrep j
  · simp

theorem inv2_step (bs : Int) (W : Nat) (b0 m t n : Int) (rt : RateTracker)
    (hbs : 0 < bs) (hb0 : 0 < b0)
    (hinv : Inv2 bs W b0 m rt)
    (hmle : m ≤ timeTruncate t bs)
    (hspan : timeTruncate t bs - b0 ≤ ((W : Int) - 1) * bs) :
    ∃ rt1, RecordN rt t n = some rt1 ∧
      Inv2 bs W b0 (timeTruncate t bs) rt1 ∧
      rt1.totalCount = rt.totalCount + n := by
  obtain ⟨hbse, hwse, hlb, hltl, hci, hcur, hb0m, hdvd, hslots, hzero⟩ := hinv
  subst hbse
  subst hwse
  have hm0 : 0 < m := lt_of_lt_of_le hb0 hb0m
  have hbtdvd : rt.bucketSize ∣ timeTruncate t rt.bucketSize :=
    dvd_timeTruncate t rt.bucketSize hbs
  rcases eq_or_lt_of_le hmle with heq | hlt2
  · -- same bucket: no advance
    refine ⟨_, recordN_no_advance rt t n (by omega) (by omega) ?_, ?_, ?_⟩
    · intro hc
      rw [hcur] at hc
      rcases hc.1 with h | h
      · exact absurd h (by simp [timeIsZero]; omega)
      · omega
    · constructor
      · rfl
      · rfl
      · simpa using hlb
      · simpa using hltl
      · simpa using hci
      · simpa using getD_set_self rt.timestamps rt.currentIndex _ (by omega)
      · omega
      · exact hbtdvd
      · simp only
        rw [← heq]
        exact hslots
      · intro j hcij hjW
        have hcij2 : rt.currentIndex < j := hcij
        have hjW2 : j < rt.windowSize := hjW
        have hne : rt.currentIndex ≠ j := by omega
        simp only
        rw [getD_set_ne _ _ _ _ hne]
        exact hzero j hcij2 hjW2
    · simp
  · -- strictly newer bucket: advance by one
    have hgap : m + rt.bucketSize ≤ timeTruncate t rt.bucketSize :=
      gap_ge_of_dvd rt.bucketSize m _ hbs hdvd hbtdvd hlt2
    have hciInt : ((rt.currentIndex : Int) + 1) * rt.bucketSize ≤
        timeTruncate t rt.bucketSize - b0 := by
      have h3 : ((rt.currentIndex : Int) + 1) * rt.bucketSize =
          (rt.currentIndex : Int) * rt.bucketSize + rt.bucketSize := by ring
      rw [h3]
      linarith
    have hlt3 : rt.currentIndex + 1 < rt.windowSize := by
      have h1 : ((rt.currentIndex : Int) + 1) * rt.bucketSize ≤
          ((rt.windowSize : Int) - 1) * rt.bucketSize := le_trans hciInt hspan
      have h2 : (rt.currentIndex : Int) + 1 ≤ (rt.windowSize : Int) - 1 :=
        le_of_mul_le_mul_right h1 hbs
      omega
    have hk : (rt.currentIndex + 1) % rt.windowSize = rt.currentIndex + 1 :=
      Nat.mod_eq_of_lt hlt3
    have hcond : (timeIsZero (rt.timestamps.getD rt.currentIndex 0) ∨
          rt.timestamps.getD rt.currentIndex 0 < timeTruncate t rt.bucketSize) ∧
        (¬ timeIsZero (rt.timestamps.getD rt.currentIndex 0) ∧
          rt.bucketSize ≤ timeSub (timeTruncate t rt.bucketSize)
            (rt.timestamps.getD rt.currentIndex 0)) := by
      rw [hcur]
      exact ⟨Or.inr hlt2, by simp [timeIsZero]; omega,
        by unfold timeSub; omega⟩
    refine ⟨_, recordN_advance rt t n (by omega) (by omega) (by omega) (by omega)
      hcond, ?_, ?_⟩
    · constructor
      · rfl
      · rfl
      · simpa using hlb
      · simpa using hltl
      · simp only [hk]
        omega
      · simp only [hk]
        exact getD_set_self rt.timestamps _ _ (by omega)
      · omega
      · exact hbtdvd
      · simp only [hk]
        push_cast
        exact hciInt
      · intro j hcij hjW
        have hcij2 : (rt.currentIndex + 1) % rt.windowSize < j := hcij
        have hjW2 : j < rt.windowSize := hjW
        rw [hk] at hcij2
        have hne : rt.currentIndex + 1 ≠ j := by omega
        simp only [hk]
        rw [getD_set_ne _ _ _ _ hne]
        exact hzero j (by omega) hjW2
    · have hz : rt.buckets.getD ((rt.currentIndex + 1) % rt.windowSize) 0 = 0 := by
        rw [hk]
        exact hzero _ (by omega) hlt3
      simp only [hz]
      omega

theorem inv2_run (bs : Int) (W : Nat) (b0 : Int) (hbs : 0 < bs) (hb0 : 0 < b0) :
    ∀ (l : List (Int × Int)) (m : Int) (rt : RateTracker),
      Inv2 bs W b0 m rt →
      List.Chain' (· ≤ ·) (m :: l.map (fun p => timeTruncate p.1 bs)) →
      (∀ p ∈ l, timeTruncate p.1 bs - b0 ≤ ((W : Int) - 1) * bs) →
      ∃ rt1 m1, runRecords rt l = some rt1 ∧ Inv2 bs W b0 m1 rt1 ∧
        rt1.totalCount = rt.totalCount + (l.map (fun p => p.2)).sum ∧
        m ≤ m1 ∧ (m1 = m ∨ ∃ p ∈ l, m1 = timeTruncate p.1 bs) := by
  intro l
  induction l with
  | nil =>
    intro m rt hinv _ _
    exact ⟨rt, m, rfl, hinv, by simp, le_refl m, Or.inl rfl⟩
  | cons p rest ih =>
    intro m rt hinv hchain hspan
    obtain ⟨t, n⟩ := p
    rw [List.map_cons] at hchain
    have h1 := List.chain'_cons.mp hchain
    obtain ⟨rt1, hrec, hinv1, htot1⟩ := inv2_step bs W b0 m t n rt hbs hb0 hinv
      h1.1 (hspan (t, n) (List.mem_cons_self _ _))
    obtain ⟨rt2, m1, hrun, hinv2, htot2, hle, hm1⟩ := ih (timeTruncate t bs) rt1
      hinv1 h1.2 (fun q hq => hspan q (List.mem_cons_of_mem _ hq))
    refine ⟨rt2, m1, ?_, hinv2, ?_, le_trans h1.1 hle, ?_⟩
    · simp only [runRecords, hrec]
      exact hrun
    · rw [htot2, htot1]
      simp only [List.map_cons, List.sum_cons]
      omega
    · rcases hm1 with heq | ⟨q, hq, hq2⟩
      · exact Or.inr ⟨(t, n), List.mem_cons_self _ _, heq⟩
      · exact Or.inr ⟨q, List.mem_cons_of_mem _ hq, hq2⟩

theorem c2_aux (bucketSize wsize : Int) (rt0 : RateTracker)
    (l : List (Int × Int)) (now : Int)
    (hnew : NewRateTracker bucketSize wsize = some rt0) (hws : 1 ≤ wsize)
    (hbs : 0 < bucketSize)
    (hchain : List.Chain'
      (fun p q => timeTruncate p.1 bucketSize ≤ timeTruncate q.1 bucketSize) l)
    (hpos : ∀ p ∈ l, 0 < timeTruncate p.1 bucketSize)
    (hspan : ∀ p ∈ l, ∀ q ∈ l,
      timeTruncate q.1 bucketSize - timeTruncate p.1 bucketSize ≤
        (wsize - 1) * bucketSize)
    (hwin : ∀ p ∈ l, now - timeTruncate p.1 bucketSize ≤ bucketSize * wsize) :
    ∃ rt, runRecords rt0 l = some rt ∧
      rt.totalCount = (l.map (fun p => p.2)).sum ∧
      (GetStats rt now).Total = (l.map (fun p => p.2)).sum := by
  unfold NewRateTracker at hnew
  split at hnew
  · cases hnew
  · cases hnew
    have hWcast : ((wsize.toNat : Nat) : Int) = wsize := by omega
    have hW0 : 0 < wsize.toNat := by omega
    cases l with
    | nil =>
      refine ⟨_, rfl, by simp, ?_⟩
      unfold GetStats
      simp [zeroStats]
    | cons p rest =>
      obtain ⟨t, n⟩ := p
      have hb0 : 0 < timeTruncate t bucketSize :=
        hpos (t, n) (List.mem_cons_self _ _)
      obtain ⟨rt1, hrec1, hinv1, htot1⟩ :=
        inv2_first bucketSize wsize.toNat t n hbs hW0
      have hchain2 : List.Chain' (· ≤ ·)
          (timeTruncate t bucketSize ::
            rest.map (fun p => timeTruncate p.1 bucketSize)) := by
        have h2 := (List.chain'_map
          (fun p : Int × Int => timeTruncate p.1 bucketSize)).mpr hchain
        rw [List.map_cons] at h2
        exact h2
      obtain ⟨rt2, m1, hrun, hinv2, htot2, hle, hm1⟩ :=
        inv2_run bucketSize wsize.toNat (timeTruncate t bucketSize) hbs hb0 rest
          (timeTruncate t bucketSize) rt1 hinv1 hchain2
          (fun q hq => by
            rw [hWcast]
            exact hspan (t, n) (List.mem_cons_self _ _) q
              (List.mem_cons_of_mem _ hq))
      have hrunfull : runRecords
          { buckets := List.replicate wsize.toNat 0
            timestamps := List.replicate wsize.toNat 0
            currentIndex := 0
            bucketSize := bucketSize
            windowSize := wsize.toNat
            totalCount := 0 } ((t, n) :: rest) = some rt2 := by
        simp only [runRecords, hrec1]
        exact hrun
      have htotal : rt2.totalCount = (((t, n) :: rest).map (fun p => p.2)).sum := by
        rw [htot2, htot1]
        simp only [List.map_cons, List.sum_cons]
      refine ⟨rt2, hrunfull, htotal, ?_⟩
      by_cases htc : rt2.totalCount = 0
      · rw [← htotal, htc]
        unfold GetStats
        rw [if_pos htc]
        rfl
      · have hm1win : now - m1 ≤ bucketSize * wsize := by
          rcases hm1 with heq | ⟨q, hq, hq2⟩
          · rw [heq]
            exact hwin (t, n) (List.mem_cons_self _ _)
          · rw [hq2]
            exact hwin q (List.mem_cons_of_mem _ hq)
        have hvalid : validSlot rt2 now rt2.currentIndex := by
          constructor
          · rw [hinv2.hcur]
            have := hinv2.hb0m
            omega
          · rw [hinv2.hcur, hinv2.hbse, hinv2.hwse, hWcast]
            omega
        have hvb := scanAll_validBuckets_ne_zero rt2 now rt2.currentIndex
          (by rw [hinv2.hwse]; exact hinv2.hci) hvalid
        rw [getStats_spec rt2 now htc hvb]
        exact htotal

/-- C2 counterexample: with `NewRateTracker(10, 2)` (two 10-unit
buckets, window span 20), record one event each at times 80, 90 and 100
and query at `now = 100`.  Every timestamp is within one bucket window
(20 units) of `now`, yet the three distinct bucket times force two
advances; the second advance wraps around and evicts the live count of
the bucket at time 80, so `GetStats().Total = 2` while the recorded sum
is `1 + 1 + 1 = 3`. -/
theorem C2_counterexample :
    (((NewRateTracker 10 2).bind fun rt0 =>
      runRecords rt0 [(80, 1), (90, 1), (100, 1)]).map
        fun rt => (GetStats rt 100).Total) = some 2 ∧
    (100 : Int) - 80 ≤ 10 * 2 ∧ (2 : Int) ≠ 1 + 1 + 1 := by
  refine ⟨by decide, by decide, by decide⟩

/-- C2 (amended): for any sequence of `RecordN(t_i, n_i)` calls on a
freshly constructed tracker (positive `bucketDuration`,
`windowSize ≥ 1`) whose truncated bucket times are non-decreasing,
positive, within the window of the query time `now`, and spanning at
most `windowSize` distinct buckets (`bucket span ≤ (windowSize - 1) *
bucketDuration`, which rules out wrap-around eviction), with all counts
non-negative, `GetStats().Total` equals the sum of all `n_i` recorded so
far, and the value is monotonically non-decreasing along the sequence. -/
theorem C2_conservation (bucketSize wsize : Int) (rt0 : RateTracker)
    (l : List (Int × Int)) (now : Int)
    (hnew : NewRateTracker bucketSize wsize = some rt0) (hws : 1 ≤ wsize)
    (hbs : 0 < bucketSize)
    (hchain : List.Chain'
      (fun p q => timeTruncate p.1 bucketSize ≤ timeTruncate q.1 bucketSize) l)
    (hpos : ∀ p ∈ l, 0 < timeTruncate p.1 bucketSize)
    (hspan : ∀ p ∈ l, ∀ q ∈ l,
      timeTruncate q.1 bucketSize - timeTruncate p.1 bucketSize ≤
        (wsize - 1) * bucketSize)
    (hwin : ∀ p ∈ l, now - timeTruncate p.1 bucketSize ≤ bucketSize * wsize)
    (hnn : ∀ p ∈ l, 0 ≤ p.2) :
    ∃ rt, runRecords rt0 l = some rt ∧
      (GetStats rt now).Total = (l.map (fun p => p.2)).sum ∧
      (∀ l1 l2, l = l1 ++ l2 →
        ∃ rt1, runRecords rt0 l1 = some rt1 ∧
          (GetStats rt1 now).Total ≤ (GetStats rt now).Total) := by
  obtain ⟨rt, hrun, _, hTotal⟩ :=
    c2_aux bucketSize wsize rt0 l now hnew hws hbs hchain hpos hspan hwin
  refine ⟨rt, hrun, hTotal, ?_⟩
  intro l1 l2 hsplit
  subst hsplit
  have hchain1 := (List.chain'_append.mp hchain).1
  obtain ⟨rt1, hrun1, _, hTotal1⟩ :=
    c2_aux bucketSize wsize rt0 l1 now hnew hws hbs hchain1
      (fun p hp => hpos p (List.mem_append_left _ hp))
      (fun p hp q hq => hspan p (List.mem_append_left _ hp) q
        (List.mem_append_left _ hq))
      (fun p hp => hwin p (List.mem_append_left _ hp))
  refine ⟨rt1, hrun1, ?_⟩
  rw [hTotal1, hTotal, List.map_append, List.sum_append]
  have hnn2 : 0 ≤ (l2.map (fun p => p.2)).sum := by
    apply List.sum_nonneg
    intro x hx
    obtain ⟨q, hq, rfl⟩ := List.mem_map.mp hx
    exact hnn q (List.mem_append_right _ hq)
  omega

theorem C2_conservation_witness :
    ∃ rt, runRecords { buckets := [0, 0], timestamps := [0, 0], currentIndex := 0,
                       bucketSize := 10, windowSize := 2, totalCount := 0 }
        [(10, 2), (25, 3)] = some rt ∧
      (GetStats rt 30).Total = ([(10, 2), (25, 3)].map (fun p : Int × Int => p.2)).sum ∧
      (∀ l1 l2, [(10, 2), (25, 3)] = l1 ++ l2 →
        ∃ rt1, runRecords { buckets := [0, 0], timestamps := [0, 0], currentIndex := 0,
                            bucketSize := 10, windowSize := 2, totalCount := 0 }
            l1 = some rt1 ∧
          (GetStats rt1 30).Total ≤ (GetStats rt 30).Total) :=
  C2_conservation 10 2 _ [(10, 2), (25, 3)] 30 (by decide) (by decide) (by decide)
    (List.chain'_cons.mpr ⟨by decide, List.chain'_singleton _⟩)
    (by decide) (by decide) (by decide) (by decide)

/-! ### Claim C3: at most one live slot per bucket-aligned timestamp -/

/-- No two distinct slots with non-zero represented timestamps hold the
same timestamp. -/
def NoDupLive (rt : RateTracker) : Prop :=
  ∀ i j : Nat, i < rt.timestamps.length → j < rt.timestamps.length → i ≠ j →
    rt.timestamps.getD i 0 ≠ 0 →
    rt.timestamps.getD i 0 ≠ rt.timestamps.getD j 0

/-- Invariant of a tracker filled with non-decreasing positive bucket
times: the current slot holds the largest bucket time `m`, all other
live slots hold strictly smaller times, and all live timestamps are
pairwise distinct. -/
structure Inv3 (bs : Int) (W : Nat) (m : Int) (rt : RateTracker) : Prop where
  hbse : rt.bucketSize = bs
  hwse : rt.windowSize = W
  hlb : rt.buckets.length = W
  hltl : rt.timestamps.length = W
  hci : rt.currentIndex < W
  hcur : rt.timestamps.getD rt.currentIndex 0 = m
  hm0 : 0 < m
  hdvd : bs ∣ m
  hdom : ∀ j : Nat, j < W → j ≠ rt.currentIndex → rt.timestamps.getD j 0 ≠ 0 →
    rt.timestamps.getD j 0 < m
  hnodup : ∀ i j : Nat, i < W → j < W → i ≠ j → rt.timestamps.getD i 0 ≠ 0 →
    rt.timestamps.getD i 0 ≠ rt.timestamps.getD j 0

theorem inv3_first (bs : Int) (W : Nat) (t n : Int) (hbs : 0 < bs) (hW : 0 < W)
    (hbt : 0 < timeTruncate t bs) :
    ∃ rt1, RecordN { buckets := List.replicate W 0, timestamps := List.replicate W 0,
                     currentIndex := 0, bucketSize := bs, windowSize := W,
                     totalCount := 0 } t n = some rt1 ∧
      Inv3 bs W (timeTruncate t bs) rt1 := by
  have hrep : ∀ j : Nat, (List.replicate W (0:Int)).getD j 0 = 0 := getD_replicate_zero W
  have hget : ∀ j : Nat, j ≠ 0 →
      ((List.replicate W (0:Int)).set 0 (timeTruncate t bs)).getD j 0 = 0 := by
    intro j hj
    rw [getD_set_ne _ _ _ _ (fun h => hj h.symm)]
    exact hrep j
  have hget0 : ((List.replicate W (0:Int)).set 0 (timeTruncate t bs)).getD 0 0 =
      timeTruncate t bs :=
    getD_set_self _ _ _ (by simpa using hW)
  refine ⟨_, recordN_no_advance _ t n (by simp; omega) (by simp; omega) ?_, ?_⟩
  · intro hc
    exact hc.2.1 (by simp [timeIsZero, hrep])
  · constructor
    · rfl
    · rfl
    · simp
    · simp
    · simpa using hW
    · simpa using hget0
    · exact hbt
    · exact dvd_timeTruncate t bs hbs
    · intro j _ hj hne
      exact absurd (hget j hj) hne
    · intro i j _ _ hij hi
      simp only at hi ⊢
      by_cases hi0 : i = 0
      · subst hi0
        rw [hget j (fun h => hij h.symm)]
        rw [hget0]
        omega
      · exact absurd (hget i hi0) hi

theorem inv3_step (bs : Int) (W : Nat) (m t n : Int) (rt : RateTracker)
    (hbs : 0 < bs) (hinv : Inv3 bs W m rt)
    (hmle : m ≤ timeTruncate t bs) :
    ∃ rt1, RecordN rt t n = some rt1 ∧ Inv3 bs W (timeTruncate t bs) rt1 := by
  obtain ⟨hbse, hwse, hlb, hltl, hci, hcur, hm0, hdvd, hdom, hnodup⟩ := hinv
  subst hbse
  subst hwse
  have hbtdvd : rt.bucketSize ∣ timeTruncate t rt.bucketSize :=
    dvd_timeTruncate t rt.bucketSize hbs
  rcases eq_or_lt_of_le hmle with heq | hlt2
  · -- same bucket: no advance; the current slot keeps its timestamp
    refine ⟨_, recordN_no_advance rt t n (by omega) (by omega) ?_, ?_⟩
    · intro hc
      rw [hcur] at hc
      rcases hc.1 with h | h
      · exact absurd h (by simp [timeIsZero]; omega)
      · omega
    · have hts_all : ∀ j : Nat,
          (rt.timestamps.set rt.currentIndex (timeTruncate t rt.bucketSize)).getD j 0 =
          rt.timestamps.getD j 0 := by
        intro j
        by_cases hj : rt.currentIndex = j
        · subst hj
          rw [getD_set_self _ _ _ (by omega), hcur, heq]
        · rw [getD_set_ne _ _ _ _ hj]
      constructor
      · rfl
      · rfl
      · simpa using hlb
      · simpa using hltl
      · simpa using hci
      · simp only
        rw [hts_all, hcur, heq]
      · omega
      · exact hbtdvd
      · intro j hjW hjne hj0
        simp only [hts_all] at hj0 ⊢
        rw [← heq]
        exact hdom j hjW hjne hj0
      · intro i j hiW hjW hij hi
        simp only [hts_all] at hi ⊢
        exact hnodup i j hiW hjW hij hi
  · -- strictly newer bucket: advance (possibly wrapping)
    have hW0 : 0 < rt.windowSize := by omega
    have hk : (rt.currentIndex + 1) % rt.windowSize < rt.windowSize :=
      Nat.mod_lt _ hW0
    have hgap : m + rt.bucketSize ≤ timeTruncate t rt.bucketSize :=
      gap_ge_of_dvd rt.bucketSize m _ hbs hdvd hbtdvd hlt2
    have hcond : (timeIsZero (rt.timestamps.getD rt.currentIndex 0) ∨
          rt.timestamps.getD rt.currentIndex 0 < timeTruncate t rt.bucketSize) ∧
        (¬ timeIsZero (rt.timestamps.getD rt.currentIndex 0) ∧
          rt.bucketSize ≤ timeSub (timeTruncate t rt.bucketSize)
            (rt.timestamps.getD rt.currentIndex 0)) := by
      rw [hcur]
      exact ⟨Or.inr hlt2, by simp [timeIsZero]; omega, by unfold timeSub; omega⟩
    have hdomAll : ∀ j : Nat, j < rt.windowSize →
        rt.timestamps.getD j 0 ≠ 0 →
        rt.timestamps.getD j 0 < timeTruncate t rt.bucketSize := by
      intro j hjW hj0
      by_cases hjc : j = rt.currentIndex
      · subst hjc
        rw [hcur]
        exact hlt2
      · exact lt_trans (hdom j hjW hjc hj0) hlt2
    have hget_set : ∀ j : Nat, j ≠ (rt.currentIndex + 1) % rt.windowSize →
        (rt.timestamps.set ((rt.currentIndex + 1) % rt.windowSize)
          (timeTruncate t rt.bucketSize)).getD j 0 = rt.timestamps.getD j 0 := by
      intro j hj
      rw [getD_set_ne _ _ _ _ (fun h => hj h.symm)]
    have hget_k : (rt.timestamps.set ((rt.currentIndex + 1) % rt.windowSize)
        (timeTruncate t rt.bucketSize)).getD
          ((rt.currentIndex + 1) % rt.windowSize) 0 =
        timeTruncate t rt.bucketSize :=
      getD_set_self _ _ _ (by omega)
    refine ⟨_, recordN_advance rt t n (by omega) (by omega) (by omega) (by omega)
      hcond, ?_⟩
    constructor
    · rfl
    · rfl
    · simpa using hlb
    · simpa using hltl
    · simpa using hk
    · simpa using hget_k
    · omega
    · exact hbtdvd
    · intro j hjW hjne hj0
      have hjW2 : j < rt.windowSize := hjW
      have hjne2 : j ≠ (rt.currentIndex + 1) % rt.windowSize := hjne
      simp only [hget_set j hjne2] at hj0 ⊢
      exact hdomAll j hjW2 hj0
    · intro i j hiW hjW hij hi
      have hiW2 : i < rt.windowSize := hiW
      have hjW2 : j < rt.windowSize := hjW
      have hij2 : i ≠ j := hij
      by_cases hik : i = (rt.currentIndex + 1) % rt.windowSize
      · subst hik
        simp only [hget_k, hget_set j (fun h => hij2 h.symm)] at hi ⊢
        by_cases hj0 : rt.timestamps.getD j 0 = 0
        · rw [hj0]
          omega
        · have := hdomAll j hjW2 hj0
          omega
      · by_cases hjk : j = (rt.currentIndex + 1) % rt.windowSize
        · subst hjk
          simp only [hget_set i hik, hget_k] at hi ⊢
          have := hdomAll i hiW2 hi
          omega
        · simp only [hget_set i hik, hget_set j hjk] at hi ⊢
          exact hnodup i j hiW2 hjW2 hij2 hi

theorem inv3_run (bs : Int) (W : Nat) (hbs : 0 < bs) :
    ∀ (l : List (Int × Int)) (m : Int) (rt : RateTracker),
      Inv3 bs W m rt →
      List.Chain' (· ≤ ·) (m :: l.map (fun p => timeTruncate p.1 bs)) →
      ∃ rt1 m1, runRecords rt l = some rt1 ∧ Inv3 bs W m1 rt1 := by
  intro l
  induction l with
  | nil => intro m rt hinv _; exact ⟨rt, m, rfl, hinv⟩
  | cons p rest ih =>
    intro m rt hinv hchain
    obtain ⟨t, n⟩ := p
    rw [List.map_cons] at hchain
    have h1 := List.chain'_cons.mp hchain
    obtain ⟨rt1, hrec, hinv1⟩ := inv3_step bs W m t n rt hbs hinv h1.1
    obtain ⟨rt2, m1, hrun, hinv2⟩ := ih (timeTruncate t bs) rt1 hinv1 h1.2
    refine ⟨rt2, m1, ?_, hinv2⟩
    simp only [runRecords, hrec]
    exact hrun

/-- C3 counterexample: the claim tolerates out-of-real-time-order
recording, but the final line of `RecordN` unconditionally overwrites
the current slot's represented time with the event's bucket time.  On
`NewRateTracker(10, 3)`, record at times 10, 20, 10: the third call does
not advance (bucket 10 is not after bucket 20) but rewrites slot 1's
timestamp from 20 back to 10, so slots 0 and 1 both end up holding the
non-zero bucket-aligned timestamp 10. -/
theorem C3_counterexample :
    (((NewRateTracker 10 3).bind fun rt0 =>
      runRecords rt0 [(10, 1), (20, 1), (10, 1)]).map fun rt =>
        (rt.timestamps.getD 0 0, rt.timestamps.getD 1 0)) = some (10, 10) ∧
    (10 : Int) ≠ 0 := by
  exact ⟨by decide, by decide⟩

/-- C3 (amended): in every state reachable from a freshly constructed
tracker (positive `bucketDuration`, `windowSize ≥ 1`) by a sequence of
`Record`/`RecordN` calls whose truncated bucket times are positive and
non-decreasing (real-time-ordered recording), at most one bucket slot
with a non-zero represented timestamp holds any given bucket-aligned
timestamp; advancing overwrites the slot at the next circular index. -/
theorem C3_no_duplicate_timestamps (bucketSize wsize : Int) (rt0 : RateTracker)
    (l : List (Int × Int))
    (hnew : NewRateTracker bucketSize wsize = some rt0) (hws : 1 ≤ wsize)
    (hbs : 0 < bucketSize)
    (hchain : List.Chain'
      (fun p q => timeTruncate p.1 bucketSize ≤ timeTruncate q.1 bucketSize) l)
    (hpos : ∀ p ∈ l, 0 < timeTruncate p.1 bucketSize) :
    ∃ rt, runRecords rt0 l = some rt ∧ NoDupLive rt := by
  unfold NewRateTracker at hnew
  split at hnew
  · cases hnew
  · cases hnew
    have hW0 : 0 < wsize.toNat := by omega
    cases l with
    | nil =>
      refine ⟨_, rfl, ?_⟩
      intro i j _ _ _ hi
      exact absurd (getD_replicate_zero wsize.toNat i) hi
    | cons p rest =>
      obtain ⟨t, n⟩ := p
      have hb0 : 0 < timeTruncate t bucketSize :=
        hpos (t, n) (List.mem_cons_self _ _)
      obtain ⟨rt1, hrec1, hinv1⟩ :=
        inv3_first bucketSize wsize.toNat t n hbs hW0 hb0
      have hchain2 : List.Chain' (· ≤ ·)
          (timeTruncate t bucketSize ::
            rest.map (fun p => timeTruncate p.1 bucketSize)) := by
        have h2 := (List.chain'_map
          (fun p : Int × Int => timeTruncate p.1 bucketSize)).mpr hchain
        rw [List.map_cons] at h2
        exact h2
      obtain ⟨rt2, m1, hrun, hinv2⟩ :=
        inv3_run bucketSize wsize.toNat hbs rest (timeTruncate t bucketSize) rt1
          hinv1 hchain2
      refine ⟨rt2, ?_, ?_⟩
      · simp only [runRecords, hrec1]
        exact hrun
      · intro i j hi hj hij h0
        rw [hinv2.hltl] at hi hj
        exact hinv2.hnodup i j hi hj hij h0

theorem C3_no_duplicate_timestamps_witness :
    ∃ rt, runRecords { buckets := [0, 0], timestamps := [0, 0], currentIndex := 0,
                       bucketSize := 10, windowSize := 2, totalCount := 0 }
        [(10, 1), (25, 1)] = some rt ∧ NoDupLive rt :=
  C3_no_duplicate_timestamps 10 2 _ [(10, 1), (25, 1)] (by decide) (by decide)
    (by decide) (List.chain'_cons.mpr ⟨by decide, List.chain'_singleton _⟩)
    (by decide)
